import Mathlib

/-!
Verification of the suggestion-extraction core (`src/lib.rs`).

The Rust code is shallowly embedded as follows:
* a Rust `String`/`&str` whose bytes are sliced is a `List Char` together
  with explicit UTF-8 byte offsets (`Char.utf8Size`); a byte-range slice
  `s[i..j]` becomes `byte_slice s i j : Option (List Char)`, `none`
  modelling the Rust panic on an out-of-range index, an index that is not
  a character boundary, or `i > j`;
* strings that are only copied verbatim (messages, file names,
  replacement text) stay `String`;
* a panic of any kind (`expect` on an empty span, a failed byte slice)
  is `none` in the enclosing `Option`.
-/

/-- Drop exactly `n` bytes from the front of `s`; `none` when `n` is not a
character boundary or exceeds the byte length (Rust `&s[n..]` panic). -/
def byte_drop : Nat → List Char → Option (List Char)
  | 0, s => some s
  | _ + 1, [] => none
  | n + 1, c :: cs =>
    if c.utf8Size ≤ n + 1 then byte_drop (n + 1 - c.utf8Size) cs else none

/-- Take exactly `n` bytes from the front of `s`; `none` when `n` is not a
character boundary or exceeds the byte length. -/
def byte_take : Nat → List Char → Option (List Char)
  | 0, _ => some []
  | _ + 1, [] => none
  | n + 1, c :: cs =>
    if c.utf8Size ≤ n + 1 then (byte_take (n + 1 - c.utf8Size) cs).map (fun t => c :: t) else none

/-- Rust byte-range slice `s[i..j]`: `none` models the panic when `i > j`,
when an index is out of range, or when an index is not a character
boundary. -/
def byte_slice (s : List Char) (i j : Nat) : Option (List Char) :=
  if i ≤ j then (byte_drop i s).bind (byte_take (j - i)) else none

/-- Rust `char::is_whitespace`: the Unicode `White_Space` property. -/
def char_is_whitespace (c : Char) : Bool :=
  (0x9 ≤ c.val && c.val ≤ 0xD) || c.val == 0x20 || c.val == 0x85 || c.val == 0xA0 ||
  c.val == 0x1680 || (0x2000 ≤ c.val && c.val ≤ 0x200A) || c.val == 0x2028 ||
  c.val == 0x2029 || c.val == 0x202F || c.val == 0x205F || c.val == 0x3000

/-- Type `LinePosition` from `src/lib.rs`: a 1-based line/column pair. -/
structure LinePosition where
  line : Nat
  column : Nat
  deriving Repr, DecidableEq

/-- The `Display` implementation for `LinePosition`:
`write!(f, "{}:{}", self.line, self.column)`. -/
def LinePosition.display (p : LinePosition) : String :=
  toString p.line ++ ":" ++ toString p.column

/-- Type `LineRange` from `src/lib.rs`: an inclusive region between two
positions. -/
structure LineRange where
  start : LinePosition
  «end» : LinePosition
  deriving Repr, DecidableEq

/-- The `Display` implementation for `LineRange`:
`write!(f, "{}-{}", self.start, self.end)`. -/
def LineRange.display (r : LineRange) : String :=
  r.start.display ++ "-" ++ r.«end».display

/-- Type `Snippet` from `src/lib.rs`. `text` is the
(lead, body, tail) split of the unindented span text. -/
structure Snippet where
  sub_message : Option String
  file_name : String
  line_range : LineRange
  text : List Char × List Char × List Char
  deriving Repr, DecidableEq

/-- Type `Replacement` from `src/lib.rs`. -/
structure Replacement where
  snippet : Snippet
  replacement : String
  deriving Repr, DecidableEq

/-- Type `Suggestion` from `src/lib.rs`. -/
structure Suggestion where
  message : String
  snippets : List Snippet
  replacements : List Replacement
  deriving Repr, DecidableEq

/-- One element of `DiagnosticSpan::text` (module `diagnostics`, schema
given in the spec): a raw source line with 1-based highlight columns. -/
structure DiagnosticSpanLine where
  text : List Char
  highlight_start : Nat
  highlight_end : Nat
  deriving Repr, DecidableEq

/-- Type `DiagnosticSpan` (module `diagnostics`, schema given in the spec). -/
structure DiagnosticSpan where
  file_name : String
  line_start : Nat
  line_end : Nat
  column_start : Nat
  column_end : Nat
  suggested_replacement : Option String
  text : List DiagnosticSpanLine
  deriving Repr, DecidableEq

/-- Type `Diagnostic` (module `diagnostics`, schema given in the spec): a
message, its own spans, and nested child diagnostics. -/
inductive Diagnostic : Type where
  | mk (message : String) (spans : List DiagnosticSpan) (children : List Diagnostic)

/-- The `message` field of a `Diagnostic`. -/
def Diagnostic.message : Diagnostic → String
  | .mk m _ _ => m

/-- The `spans` field of a `Diagnostic`. -/
def Diagnostic.spans : Diagnostic → List DiagnosticSpan
  | .mk _ s _ => s

/-- The `children` field of a `Diagnostic`. -/
def Diagnostic.children : Diagnostic → List Diagnostic
  | .mk _ _ c => c

/-- The per-line indent bound inside `parse_snippet`:
`min(count of leading whitespace chars, line.highlight_start)`. -/
def line_indent (line : DiagnosticSpanLine) : Nat :=
  min (line.text.takeWhile char_is_whitespace).length line.highlight_start

/-- The slicing part of `parse_snippet` from `src/lib.rs`: compute the
uniform indent (`expect` on an empty span is the `none` of `min?`), then
build the `lead`/`body`/`tail` character lists by byte slicing.
`push_interior` below is the interior-line loop. -/
def push_interior (indent : Nat) : List DiagnosticSpanLine → List Char → Option (List Char)
  | [], body => some body
  | line :: rest, body => do
    let s ← byte_drop indent line.text
    push_interior indent rest (body ++ '\n' :: s)

/-- The `lead`/`body`/`tail` computation of `parse_snippet`
(`src/lib.rs` lines 57-79), with `none` for every Rust panic. -/
def parse_snippet_text (span : DiagnosticSpan) : Option (List Char × List Char × List Char) := do
  let indent ← (span.text.map line_indent).min?
  let first ← span.text.head?
  let start := first.highlight_start - 1
  let stop := first.highlight_end - 1
  let lead ← byte_slice first.text indent start
  let body0 ← byte_slice first.text start stop
  let body1 ← push_interior indent ((span.text.take (span.text.length - 1)).drop 1) body0
  let last ← span.text.getLast?
  let body2 ←
    if span.text.length > 1 then
      (byte_slice last.text indent (last.highlight_end - 1)).map (fun s => body1 ++ '\n' :: s)
    else
      some body1
  let tail ← byte_drop (last.highlight_end - 1) last.text
  some (lead, body2, tail)

/-- Function `parse_snippet` from `src/lib.rs`: the text split plus the verbatim
`line_range` and `file_name` fields. -/
def parse_snippet (message : Option String) (span : DiagnosticSpan) : Option Snippet :=
  (parse_snippet_text span).map (fun lbt =>
    { sub_message := message
      file_name := span.file_name
      line_range :=
        { start := { line := span.line_start, column := span.column_start }
          «end» := { line := span.line_end, column := span.column_end } }
      text := lbt })

/-- Function `collect_span` from `src/lib.rs`: `span.suggested_replacement.map(...)`.
The outer `Option` is the panic of the inner `parse_snippet` call; the
inner `Option` is the Rust `Option<Replacement>` result. -/
def collect_span (message : Option String) (span : DiagnosticSpan) :
    Option (Option Replacement) :=
  match span.suggested_replacement with
  | none => some none
  | some replacement =>
    (parse_snippet message span).map (fun snip =>
      some { snippet := snip, replacement := replacement })

/-- The `snippets` computation of `collect_suggestions`:
`diagnostic.spans.iter().map(|span| parse_snippet(None, span)).collect()`. -/
def map_snippets : List DiagnosticSpan → Option (List Snippet)
  | [] => some []
  | span :: rest => do
    let snip ← parse_snippet none span
    let others ← map_snippets rest
    some (snip :: others)

/-- The inner loop of `collect_suggestions`: for each span of one child,
push the collected replacement (if any) onto the accumulator. -/
def push_replacements_spans (message : String) :
    List DiagnosticSpan → List Replacement → Option (List Replacement)
  | [], acc => some acc
  | span :: rest, acc => do
    let r ← collect_span (some message) span
    match r with
    | some rep => push_replacements_spans message rest (acc ++ [rep])
    | none => push_replacements_spans message rest acc

/-- The outer loop of `collect_suggestions` over the child diagnostics. -/
def push_replacements : List Diagnostic → List Replacement → Option (List Replacement)
  | [], acc => some acc
  | child :: rest, acc => do
    let acc2 ← push_replacements_spans child.message child.spans acc
    push_replacements rest acc2

/-- Spec-side description of the interior segments of a multi-line body
(one segment per interior line, the line's text from the uniform indent
position to its end), used to state the multi-line body property. -/
def interior_segs (indent : Nat) : List DiagnosticSpanLine → Option (List (List Char))
  | [] => some []
  | line :: rest => do
    let s ← byte_drop indent line.text
    let others ← interior_segs indent rest
    some (s :: others)

/-- Function `collect_suggestions` from `src/lib.rs`. The outer `Option` is a
panic anywhere inside; the inner `Option` is the Rust
`Option<Suggestion>` result. -/
def collect_suggestions (diagnostic : Diagnostic) : Option (Option Suggestion) := do
  let snippets ← map_snippets diagnostic.spans
  let replacements ← push_replacements diagnostic.children []
  if replacements.isEmpty then
    some none
  else
    some (some
      { message := diagnostic.message
        snippets := snippets
        replacements := replacements })

/-- A span with default bookkeeping fields, used for concrete test inputs. -/
def span_of (lines : List DiagnosticSpanLine) : DiagnosticSpan :=
  { file_name := "a.rs", line_start := 1, line_end := 1, column_start := 1, column_end := 1,
    suggested_replacement := none, text := lines }

/-- A line whose leading whitespace reaches its highlight start column. -/
def ex_line_ws : DiagnosticSpanLine := { text := "  ab".toList, highlight_start := 2, highlight_end := 3 }

/-- Single-line span built from `ex_line_ws`. -/
def ex_span_ws : DiagnosticSpan := span_of [ex_line_ws]

/-- Another line whose leading whitespace reaches its highlight start. -/
def ex_line_ws2 : DiagnosticSpanLine := { text := "   q".toList, highlight_start := 3, highlight_end := 4 }

/-- Single-line span built from `ex_line_ws2`. -/
def ex_span_ws2 : DiagnosticSpan := span_of [ex_line_ws2]

/-- A span with an empty `text` sequence (the contract violation). -/
def ex_span_empty : DiagnosticSpan := span_of []

/-- A line whose highlight end column lies beyond the end of the line. -/
def ex_line_oob : DiagnosticSpanLine := { text := "x".toList, highlight_start := 1, highlight_end := 5 }

/-- Single-line span built from `ex_line_oob`. -/
def ex_span_oob : DiagnosticSpan := span_of [ex_line_oob]

/-- A line with a multibyte character before the highlighted range; its
highlight columns are within the character length of the line. -/
def ex_line_mb : DiagnosticSpanLine := { text := "αb".toList, highlight_start := 2, highlight_end := 3 }

/-- Single-line span built from `ex_line_mb`. -/
def ex_span_mb : DiagnosticSpan := span_of [ex_line_mb]

/-- The spec's worked example line: highlighting the `x` of
`    let x = 1;`. -/
def ex_line_let : DiagnosticSpanLine :=
  { text := "    let x = 1;".toList, highlight_start := 9, highlight_end := 10 }

/-- Single-line span built from `ex_line_let`. -/
def ex_span_let : DiagnosticSpan := span_of [ex_line_let]

/-- An ASCII line highlighting `bar` inside `  foo(bar)`. -/
def ex_line_call : DiagnosticSpanLine :=
  { text := "  foo(bar)".toList, highlight_start := 7, highlight_end := 10 }

/-- Single-line span built from `ex_line_call`. -/
def ex_span_call : DiagnosticSpan := span_of [ex_line_call]

/-- First line of a three-line span. -/
def ex_ml1 : DiagnosticSpanLine := { text := "  ab".toList, highlight_start := 3, highlight_end := 5 }

/-- Interior line of a three-line span. -/
def ex_ml2 : DiagnosticSpanLine := { text := "  cd".toList, highlight_start := 3, highlight_end := 3 }

/-- Last line of a three-line span. -/
def ex_ml3 : DiagnosticSpanLine := { text := "  ef".toList, highlight_start := 3, highlight_end := 4 }

/-- A three-line span exercising the interior-line loop. -/
def ex_span_multi : DiagnosticSpan :=
  { file_name := "a.rs", line_start := 1, line_end := 3, column_start := 3, column_end := 4,
    suggested_replacement := none, text := [ex_ml1, ex_ml2, ex_ml3] }

/-- The snippet `parse_snippet` produces for `ex_span_multi`. -/
def ex_snip_multi : Snippet :=
  { sub_message := none, file_name := "a.rs"
    line_range := { start := { line := 1, column := 3 }, «end» := { line := 3, column := 4 } }
    text := ([], "ab\ncd\ne".toList, "f".toList) }

/-- A span carrying a suggested replacement, for collector tests. -/
def ex_span_repl : DiagnosticSpan :=
  { span_of [ex_line_let] with suggested_replacement := some ("y") }

/-- A child diagnostic whose span carries replacement text `y`. -/
def ex_child : Diagnostic := .mk ("try this") [ex_span_repl] []

/-- A diagnostic with no own spans and one replacement-bearing child. -/
def ex_diag : Diagnostic := .mk ("msg") [] [ex_child]

/-- The snippet extracted from `ex_span_repl` with the child's message. -/
def ex_snip_repl : Snippet :=
  { sub_message := some ("try this"), file_name := "a.rs"
    line_range := { start := { line := 1, column := 1 }, «end» := { line := 1, column := 1 } }
    text := ("let ".toList, "x".toList, " = 1;".toList) }

/-- The suggestion `collect_suggestions` produces for `ex_diag`. -/
def ex_sugg : Suggestion :=
  { message := "msg", snippets := []
    replacements := [{ snippet := ex_snip_repl, replacement := "y" }] }

/-- A diagnostic with one own span and one replacement-bearing child. -/
def ex_diag5 : Diagnostic := .mk ("m5") [ex_span_let] [ex_child]

/-- The context snippet extracted from `ex_span_let` with no message. -/
def ex_snip_let : Snippet :=
  { sub_message := none, file_name := "a.rs"
    line_range := { start := { line := 1, column := 1 }, «end» := { line := 1, column := 1 } }
    text := ("let ".toList, "x".toList, " = 1;".toList) }

/-- The suggestion `collect_suggestions` produces for `ex_diag5`. -/
def ex_sugg5 : Suggestion :=
  { message := "m5", snippets := [ex_snip_let]
    replacements := [{ snippet := ex_snip_repl, replacement := "y" }] }

/-- A span carrying replacement text `z`, on the `foo(bar)` line. -/
def ex_span_repl2 : DiagnosticSpan :=
  { span_of [ex_line_call] with suggested_replacement := some ("z") }

/-- A diagnostic whose child has one plain span and one replacement span. -/
def ex_diag6 : Diagnostic := .mk ("m6") [] [.mk ("fix") [ex_span_let, ex_span_repl2] []]

/-- The snippet extracted from `ex_span_repl2` with the child's message. -/
def ex_snip_repl2 : Snippet :=
  { sub_message := some ("fix"), file_name := "a.rs"
    line_range := { start := { line := 1, column := 1 }, «end» := { line := 1, column := 1 } }
    text := ("foo(".toList, "bar".toList, ")".toList) }

/-- The suggestion `collect_suggestions` produces for `ex_diag6`. -/
def ex_sugg6 : Suggestion :=
  { message := "m6", snippets := []
    replacements := [{ snippet := ex_snip_repl2, replacement := "z" }] }

/-- The snippet extracted from `ex_span_call` with message `w`. -/
def ex_snip_call : Snippet :=
  { sub_message := some ("w"), file_name := "a.rs"
    line_range := { start := { line := 1, column := 1 }, «end» := { line := 1, column := 1 } }
    text := ("foo(".toList, "bar".toList, ")".toList) }

/-- A one-character non-empty span that parses successfully. -/
def ex_span_one : DiagnosticSpan :=
  span_of [{ text := "z".toList, highlight_start := 1, highlight_end := 1 }]

theorem takeWhile_length_le_self (p : Char → Bool) (l : List Char) :
    (l.takeWhile p).length ≤ l.length := by
  induction l with
  | nil => simp
  | cons c cs ih =>
    by_cases h : p c
    · simp only [List.takeWhile_cons, h, if_true, List.length_cons]
      omega
    · simp [List.takeWhile_cons, h]

theorem byte_drop_ascii (s : List Char) (n : Nat) (ha : ∀ c ∈ s, c.utf8Size = 1)
    (hn : n ≤ s.length) : byte_drop n s = some (s.drop n) := by
  induction s generalizing n with
  | nil =>
    have : n = 0 := Nat.le_zero.mp hn
    subst this
    rfl
  | cons c cs ih =>
    cases n with
    | zero => rfl
    | succ m =>
      have hc : c.utf8Size = 1 := ha c (List.mem_cons_self c cs)
      have hm : m ≤ cs.length := by simpa using hn
      simp only [byte_drop, hc, Nat.succ_sub_one, List.drop_succ_cons]
      rw [if_pos (by omega)]
      exact ih m (fun x hx => ha x (List.mem_cons_of_mem c hx)) hm

theorem byte_take_ascii (s : List Char) (n : Nat) (ha : ∀ c ∈ s, c.utf8Size = 1)
    (hn : n ≤ s.length) : byte_take n s = some (s.take n) := by
  induction s generalizing n with
  | nil =>
    have : n = 0 := Nat.le_zero.mp hn
    subst this
    rfl
  | cons c cs ih =>
    cases n with
    | zero => rfl
    | succ m =>
      have hc : c.utf8Size = 1 := ha c (List.mem_cons_self c cs)
      have hm : m ≤ cs.length := by simpa using hn
      simp only [byte_take, hc, Nat.succ_sub_one, List.take_succ_cons]
      rw [if_pos (by omega)]
      rw [ih m (fun x hx => ha x (List.mem_cons_of_mem c hx)) hm]
      rfl

theorem byte_slice_ascii (s : List Char) (i j : Nat) (ha : ∀ c ∈ s, c.utf8Size = 1)
    (hij : i ≤ j) (hj : j ≤ s.length) :
    byte_slice s i j = some ((s.drop i).take (j - i)) := by
  unfold byte_slice
  rw [if_pos hij, byte_drop_ascii s i ha (le_trans hij hj), Option.some_bind]
  exact byte_take_ascii _ _ (fun c hc => ha c (List.mem_of_mem_drop hc))
    (by rw [List.length_drop]; omega)

theorem nat_min?_le {l : List Nat} {m a : Nat} (h : l.min? = some m) (ha : a ∈ l) :
    m ≤ a := by
  have := (List.min?_eq_some_iff (fun a => Nat.le_refl a) (fun a b => min_choice a b)
    (fun a b c => Nat.le_min)).mp h
  exact this.2 a ha

theorem parse_snippet_fields {msg : Option String} {span : DiagnosticSpan} {snip : Snippet}
    (h : parse_snippet msg span = some snip) :
    snip.sub_message = msg ∧ snip.file_name = span.file_name ∧
      snip.line_range =
        { start := { line := span.line_start, column := span.column_start }
          «end» := { line := span.line_end, column := span.column_end } } ∧
      parse_snippet_text span = some snip.text := by
  unfold parse_snippet at h
  rw [Option.map_eq_some'] at h
  obtain ⟨lbt, hp, hs⟩ := h
  subst hs
  exact ⟨rfl, rfl, rfl, hp⟩

theorem parse_snippet_single_ascii (msg : Option String) (span : DiagnosticSpan)
    (line : DiagnosticSpanLine) (ws : Nat)
    (hspan : span.text = [line])
    (ha : ∀ c ∈ line.text, c.utf8Size = 1)
    (hws : ws = (line.text.takeWhile char_is_whitespace).length)
    (h1 : 1 ≤ line.highlight_start)
    (hlt : ws < line.highlight_start)
    (hse : line.highlight_start ≤ line.highlight_end)
    (hel : line.highlight_end ≤ line.text.length + 1) :
    parse_snippet msg span = some
      { sub_message := msg
        file_name := span.file_name
        line_range :=
          { start := { line := span.line_start, column := span.column_start }
            «end» := { line := span.line_end, column := span.column_end } }
        text := ((line.text.drop ws).take (line.highlight_start - 1 - ws),
                 (line.text.drop (line.highlight_start - 1)).take
                   (line.highlight_end - line.highlight_start),
                 line.text.drop (line.highlight_end - 1)) } := by
  have hwslen : ws ≤ line.text.length := hws ▸ takeWhile_length_le_self _ _
  have hind : line_indent line = ws := by
    unfold line_indent
    rw [← hws]
    exact Nat.min_eq_left (Nat.le_of_lt hlt)
  have hsl1 : byte_slice line.text ws (line.highlight_start - 1) =
      some ((line.text.drop ws).take (line.highlight_start - 1 - ws)) :=
    byte_slice_ascii _ _ _ ha (by omega) (by omega)
  have hsl2 : byte_slice line.text (line.highlight_start - 1) (line.highlight_end - 1) =
      some ((line.text.drop (line.highlight_start - 1)).take
        (line.highlight_end - line.highlight_start)) := by
    rw [byte_slice_ascii _ _ _ ha (by omega) (by omega)]
    congr 2
    omega
  have hsl3 : byte_drop (line.highlight_end - 1) line.text =
      some (line.text.drop (line.highlight_end - 1)) :=
    byte_drop_ascii _ _ ha (by omega)
  unfold parse_snippet parse_snippet_text
  rw [hspan]
  simp [List.min?, hind, hsl1, hsl2, hsl3, push_interior]

theorem intercalate_newline_cons (a : List Char) (l : List (List Char)) :
    List.intercalate ['\n'] (a :: l) = a ++ l.flatMap (fun x => '\n' :: x) := by
  induction l generalizing a with
  | nil => simp [List.intercalate]
  | cons b t ih =>
    have hstep : List.intercalate ['\n'] (a :: b :: t) =
        a ++ '\n' :: List.intercalate ['\n'] (b :: t) := by
      simp [List.intercalate, List.intersperse]
    rw [hstep, ih b]
    simp

theorem push_interior_spec (indent : Nat) (lines : List DiagnosticSpanLine) :
    ∀ (body out : List Char), push_interior indent lines body = some out →
      ∃ segs, interior_segs indent lines = some segs ∧
        out = body ++ segs.flatMap (fun s => '\n' :: s) := by
  induction lines with
  | nil =>
    intro body out h
    refine ⟨[], rfl, ?_⟩
    simp only [push_interior] at h
    simp [← Option.some_inj.mp h]
  | cons line rest ih =>
    intro body out h
    simp only [push_interior] at h
    cases hd : byte_drop indent line.text with
    | none => rw [hd] at h; simp at h
    | some s =>
      rw [hd] at h
      simp at h
      obtain ⟨segs, hsegs, hout⟩ := ih (body ++ '\n' :: s) out h
      refine ⟨s :: segs, ?_, ?_⟩
      · simp [interior_segs, hd, hsegs]
      · simp [hout]

theorem interior_segs_length (indent : Nat) (lines : List DiagnosticSpanLine) :
    ∀ segs, interior_segs indent lines = some segs → segs.length = lines.length := by
  induction lines with
  | nil =>
    intro segs h
    simp only [interior_segs] at h
    simp [← Option.some_inj.mp h]
  | cons line rest ih =>
    intro segs h
    simp only [interior_segs] at h
    cases hd : byte_drop indent line.text with
    | none => rw [hd] at h; simp at h
    | some s =>
      rw [hd] at h
      cases hr : interior_segs indent rest with
      | none => rw [hr] at h; simp at h
      | some others =>
        rw [hr] at h
        simp at h
        have := ih others hr
        simp [← h, this]

theorem parse_snippet_text_destruct {span : DiagnosticSpan}
    {lbt : List Char × List Char × List Char}
    (h : parse_snippet_text span = some lbt) :
    ∃ indent first lastL lead body0 body1 body2 tail,
      (span.text.map line_indent).min? = some indent ∧
      span.text.head? = some first ∧
      span.text.getLast? = some lastL ∧
      byte_slice first.text indent (first.highlight_start - 1) = some lead ∧
      byte_slice first.text (first.highlight_start - 1) (first.highlight_end - 1) = some body0 ∧
      push_interior indent ((span.text.take (span.text.length - 1)).drop 1) body0 = some body1 ∧
      (if span.text.length > 1 then
        ∃ lastSeg, byte_slice lastL.text indent (lastL.highlight_end - 1) = some lastSeg ∧
          body2 = body1 ++ '\n' :: lastSeg
       else body2 = body1) ∧
      byte_drop (lastL.highlight_end - 1) lastL.text = some tail ∧
      lbt = (lead, body2, tail) := by
  unfold parse_snippet_text at h
  cases hi : (span.text.map line_indent).min? with
  | none => rw [hi] at h; simp at h
  | some indent =>
  rw [hi] at h
  simp at h
  cases hf : span.text.head? with
  | none => rw [hf] at h; simp at h
  | some first =>
  rw [hf] at h
  simp at h
  cases hlead : byte_slice first.text indent (first.highlight_start - 1) with
  | none => rw [hlead] at h; simp at h
  | some lead =>
  rw [hlead] at h
  simp at h
  cases hb0 : byte_slice first.text (first.highlight_start - 1) (first.highlight_end - 1) with
  | none => rw [hb0] at h; simp at h
  | some body0 =>
  rw [hb0] at h
  simp at h
  cases hb1 : push_interior indent ((span.text.take (span.text.length - 1)).tail) body0 with
  | none => rw [hb1] at h; simp at h
  | some body1 =>
  rw [hb1] at h
  simp at h
  cases hlast : span.text.getLast? with
  | none => rw [hlast] at h; simp at h
  | some lastL =>
  rw [hlast] at h
  simp at h
  by_cases hlen : span.text.length > 1
  · simp only [hlen, if_true] at h
    cases hls : byte_slice lastL.text indent (lastL.highlight_end - 1) with
    | none => rw [hls] at h; simp at h
    | some lastSeg =>
    rw [hls] at h
    simp at h
    cases ht : byte_drop (lastL.highlight_end - 1) lastL.text with
    | none => rw [ht] at h; simp at h
    | some tail =>
    rw [ht] at h
    simp at h
    refine ⟨indent, first, lastL, lead, body0, body1, body1 ++ '\n' :: lastSeg, tail,
      rfl, rfl, rfl, hlead, hb0, by rw [List.drop_one]; exact hb1, ?_, ht, ?_⟩
    · rw [if_pos hlen]
      exact ⟨lastSeg, hls, rfl⟩
    · simp [← h]
  · simp only [hlen, if_false] at h
    cases ht : byte_drop (lastL.highlight_end - 1) lastL.text with
    | none => rw [ht] at h; simp at h
    | some tail =>
    rw [ht] at h
    simp at h
    refine ⟨indent, first, lastL, lead, body0, body1, body1, tail,
      rfl, rfl, rfl, hlead, hb0, by rw [List.drop_one]; exact hb1, ?_, ht, ?_⟩
    · rw [if_neg hlen]
    · simp [← h]

theorem collect_span_cases {m : String} {span : DiagnosticSpan} {r : Option Replacement}
    (h : collect_span (some m) span = some r) :
    (span.suggested_replacement = none ∧ r = none) ∨
      (∃ rep rstr, r = some rep ∧ span.suggested_replacement = some rstr ∧
        rep.replacement = rstr ∧ rep.snippet.sub_message = some m) := by
  unfold collect_span at h
  cases hsr : span.suggested_replacement with
  | none =>
    rw [hsr] at h
    simp at h
    exact Or.inl ⟨rfl, h.symm⟩
  | some rstr =>
    rw [hsr] at h
    rw [Option.map_eq_some'] at h
    obtain ⟨snip, hp, hr⟩ := h
    exact Or.inr ⟨{ snippet := snip, replacement := rstr }, rstr, hr.symm, rfl, rfl,
      (parse_snippet_fields hp).1⟩

theorem push_replacements_spans_spec (m : String) (spans : List DiagnosticSpan) :
    ∀ (acc out : List Replacement), push_replacements_spans m spans acc = some out →
      ∃ new, out = acc ++ new ∧
        new.map (fun r => (r.snippet.sub_message, r.replacement)) =
          spans.filterMap (fun s =>
            s.suggested_replacement.map (fun rep => ((some m : Option String), rep))) := by
  induction spans with
  | nil =>
    intro acc out h
    simp only [push_replacements_spans] at h
    exact ⟨[], by simp [← Option.some_inj.mp h], by simp⟩
  | cons span rest ih =>
    intro acc out h
    simp only [push_replacements_spans] at h
    cases hc : collect_span (some m) span with
    | none => rw [hc] at h; simp at h
    | some r =>
      rw [hc] at h
      simp at h
      rcases collect_span_cases hc with ⟨hsr, hr⟩ | ⟨rep, rstr, hr, hsr, hrepl, hmsg⟩
      · subst hr
        obtain ⟨new, hout, hmap⟩ := ih acc out h
        exact ⟨new, hout, by simp [List.filterMap_cons, hsr, hmap]⟩
      · subst hr
        obtain ⟨new, hout, hmap⟩ := ih (acc ++ [rep]) out h
        refine ⟨rep :: new, by simp [hout], ?_⟩
        simp [List.filterMap_cons, hsr, hmap, hmsg, hrepl]

theorem push_replacements_spec (children : List Diagnostic) :
    ∀ (acc out : List Replacement), push_replacements children acc = some out →
      ∃ new, out = acc ++ new ∧
        new.map (fun r => (r.snippet.sub_message, r.replacement)) =
          children.flatMap (fun c => c.spans.filterMap (fun s =>
            s.suggested_replacement.map (fun rep => ((some c.message : Option String), rep)))) := by
  induction children with
  | nil =>
    intro acc out h
    simp only [push_replacements] at h
    exact ⟨[], by simp [← Option.some_inj.mp h], by simp⟩
  | cons child rest ih =>
    intro acc out h
    simp only [push_replacements] at h
    cases hs : push_replacements_spans child.message child.spans acc with
    | none => rw [hs] at h; simp at h
    | some acc2 =>
      rw [hs] at h
      simp at h
      obtain ⟨new1, hacc2, hmap1⟩ := push_replacements_spans_spec child.message child.spans acc acc2 hs
      obtain ⟨new2, hout, hmap2⟩ := ih acc2 out h
      refine ⟨new1 ++ new2, by simp [hout, hacc2], ?_⟩
      simp [List.flatMap_cons, hmap1, hmap2]

theorem map_snippets_spec (spans : List DiagnosticSpan) :
    ∀ out, map_snippets spans = some out →
      out.length = spans.length ∧ (∀ s ∈ out, s.sub_message = none) ∧
        ∀ i : Nat, out[i]? = spans[i]?.bind (fun sp => parse_snippet none sp) := by
  induction spans with
  | nil =>
    intro out h
    simp only [map_snippets] at h
    obtain rfl : ([] : List Snippet) = out := Option.some_inj.mp h
    exact ⟨rfl, by simp, by simp⟩
  | cons span rest ih =>
    intro out h
    simp only [map_snippets] at h
    cases hp : parse_snippet none span with
    | none => rw [hp] at h; simp at h
    | some snip =>
      rw [hp] at h
      simp at h
      cases hr : map_snippets rest with
      | none => rw [hr] at h; simp at h
      | some others =>
        rw [hr] at h
        simp at h
        obtain ⟨hlen, hnone, hidx⟩ := ih others hr
        obtain rfl : snip :: others = out := h
        refine ⟨by simp [hlen], ?_, ?_⟩
        · intro s hs
          rcases List.mem_cons.mp hs with rfl | hs'
          · exact (parse_snippet_fields hp).1
          · exact hnone s hs'
        · intro i
          cases i with
          | zero => simp [hp]
          | succ j => simp [hidx j]

theorem collect_suggestions_destruct {d : Diagnostic} {res : Option Suggestion}
    (h : collect_suggestions d = some res) :
    ∃ snips reps, map_snippets d.spans = some snips ∧
      push_replacements d.children [] = some reps ∧
      ((reps = [] ∧ res = none) ∨
        (reps ≠ [] ∧ res = some { message := d.message, snippets := snips, replacements := reps })) := by
  unfold collect_suggestions at h
  cases hm : map_snippets d.spans with
  | none => rw [hm] at h; simp at h
  | some snips =>
    rw [hm] at h
    simp at h
    cases hr : push_replacements d.children [] with
    | none => rw [hr] at h; simp at h
    | some reps =>
      rw [hr] at h
      simp at h
      by_cases he : reps = []
      · rw [if_pos he] at h
        exact ⟨snips, reps, rfl, rfl, Or.inl ⟨he, (Option.some_inj.mp h).symm⟩⟩
      · rw [if_neg he] at h
        exact ⟨snips, reps, rfl, rfl, Or.inr ⟨he, (Option.some_inj.mp h).symm⟩⟩

/-- C1 (amended): for every non-empty span, the uniform indent computed by
`parse_snippet` (the minimum over all line records of the leading-whitespace
count capped per line) is at most the first line's `highlight_start` itself
(1-based); the cap in the code is at `highlight_start`, not at
`highlight_start - 1`, so the indent can equal `highlight_start`. -/
theorem claim_C1_indent_le_first_highlight_start (span : DiagnosticSpan)
    (first : DiagnosticSpanLine) (indent : Nat)
    (hf : span.text.head? = some first)
    (hi : (span.text.map line_indent).min? = some indent) :
    indent ≤ first.highlight_start := by
  have hmem : first ∈ span.text := List.mem_of_mem_head? (by simp [hf])
  have hmem2 : line_indent first ∈ span.text.map line_indent :=
    List.mem_map_of_mem line_indent hmem
  exact le_trans (nat_min?_le hi hmem2) (min_le_right _ _)

/-- C1 counterexample: on the single-line span over `  ab` with
`highlight_start = 2`, the computed indent is `2 = highlight_start`,
which exceeds `highlight_start - 1 = 1`. -/
theorem claim_C1_counterexample :
    (ex_span_ws.text.map line_indent).min? = some 2 ∧
    ex_span_ws.text.head? = some ex_line_ws ∧
    ex_line_ws.highlight_start = 2 ∧ ¬ (2 ≤ 2 - 1) := by decide

/-- C1 witness: on the spec's worked example the computed indent is 4 and
the first line's highlight start is 9. -/
theorem claim_C1_witness :
    ex_span_let.text.head? = some ex_line_let ∧
    (ex_span_let.text.map line_indent).min? = some 4 ∧
    4 ≤ ex_line_let.highlight_start :=
  ⟨by decide, by decide,
    claim_C1_indent_le_first_highlight_start ex_span_let ex_line_let 4 (by decide) (by decide)⟩

/-- C7 (amended): a span with an empty `text` sequence always makes
`parse_snippet` fail fatally, and for a non-empty span that failure branch
(the `expect` on the indent minimum) is unreachable — the minimum exists.
`parse_snippet` may however still fail on a non-empty span through an
invalid byte slice, so it does not always return a `Snippet`. -/
theorem claim_C7_empty_text_fails (msg : Option String) (span : DiagnosticSpan) :
    (span.text = [] → parse_snippet msg span = none) ∧
    (span.text ≠ [] → ∃ i, (span.text.map line_indent).min? = some i) := by
  constructor
  · intro he
    unfold parse_snippet parse_snippet_text
    rw [he]
    rfl
  · intro hne
    cases hsp : span.text with
    | nil => exact absurd hsp hne
    | cons l rest =>
      exact ⟨(rest.map line_indent).foldl min (line_indent l), rfl⟩

/-- C7 counterexample: a non-empty span on which `parse_snippet` still
fails (its highlight end column is past the end of the line), refuting
that a `Snippet` is always returned for non-empty spans. -/
theorem claim_C7_counterexample :
    ex_span_oob.text ≠ [] ∧ parse_snippet none ex_span_oob = none := by decide

/-- C7 witness: the empty span fails; the one-line span `z` has a
computed indent minimum. -/
theorem claim_C7_witness :
    parse_snippet none ex_span_empty = none ∧
    ∃ i, (ex_span_one.text.map line_indent).min? = some i :=
  ⟨(claim_C7_empty_text_fails none ex_span_empty).1 rfl,
    (claim_C7_empty_text_fails none ex_span_one).2 (by decide)⟩

/-- C8: whenever `parse_snippet` returns a snippet, its `line_range` is the
span's 1-based `line_start`/`column_start`/`line_end`/`column_end` fields
verbatim and its `file_name` is the span's `file_name`. -/
theorem claim_C8_line_range_verbatim (msg : Option String) (span : DiagnosticSpan)
    (snip : Snippet) (h : parse_snippet msg span = some snip) :
    snip.line_range =
      { start := { line := span.line_start, column := span.column_start }
        «end» := { line := span.line_end, column := span.column_end } } ∧
    snip.file_name = span.file_name :=
  ⟨(parse_snippet_fields h).2.2.1, (parse_snippet_fields h).2.1⟩

/-- C8 witness: the snippet parsed from the `foo(bar)` span carries the
span's positions and file name verbatim. -/
theorem claim_C8_witness :
    ex_snip_call.line_range =
      { start := { line := ex_span_call.line_start, column := ex_span_call.column_start }
        «end» := { line := ex_span_call.line_end, column := ex_span_call.column_end } } ∧
    ex_snip_call.file_name = ex_span_call.file_name :=
  claim_C8_line_range_verbatim (some ("w")) ex_span_call ex_snip_call (by decide)

/-- C9: `LinePosition` renders as `line:column` and `LineRange` renders as
`start-end` with both endpoints rendered as positions; on the concrete
range 1:2-3:4 the rendering is the string `1:2-3:4`. -/
theorem claim_C9_display :
    (∀ p : LinePosition, p.display = toString p.line ++ ":" ++ toString p.column) ∧
    (∀ r : LineRange, r.display = r.start.display ++ "-" ++ r.«end».display) ∧
    LineRange.display
      { start := { line := 1, column := 2 }, «end» := { line := 3, column := 4 } } = "1:2-3:4" :=
  ⟨fun _ => rfl, fun _ => rfl, by decide⟩

/-- C2 (amended): for every single-line ASCII span whose leading-whitespace
count is below `highlight_start` and whose columns satisfy
`1 ≤ highlight_start ≤ highlight_end ≤ len(line)+1`, `parse_snippet`
returns a snippet with `lead ++ body ++ tail` equal to the line's text with
exactly the uniform indent stripped from its front. When the leading
whitespace reaches `highlight_start` the extractor fails instead of
producing a snippet, so the extra condition is required. -/
theorem claim_C2_single_line_concat (msg : Option String) (span : DiagnosticSpan)
    (line : DiagnosticSpanLine) (ws : Nat)
    (hspan : span.text = [line])
    (ha : ∀ c ∈ line.text, c.utf8Size = 1)
    (hws : ws = (line.text.takeWhile char_is_whitespace).length)
    (h1 : 1 ≤ line.highlight_start)
    (hlt : ws < line.highlight_start)
    (hse : line.highlight_start ≤ line.highlight_end)
    (hel : line.highlight_end ≤ line.text.length + 1) :
    ∃ snip, parse_snippet msg span = some snip ∧
      snip.text.1 ++ snip.text.2.1 ++ snip.text.2.2 = line.text.drop (line_indent line) := by
  refine ⟨_, parse_snippet_single_ascii msg span line ws hspan ha hws h1 hlt hse hel, ?_⟩
  have hind : line_indent line = ws := by
    unfold line_indent
    rw [← hws]
    exact Nat.min_eq_left (Nat.le_of_lt hlt)
  rw [hind]
  have h2 : (line.text.drop (line.highlight_start - 1)).take
        (line.highlight_end - line.highlight_start) ++ line.text.drop (line.highlight_end - 1) =
      line.text.drop (line.highlight_start - 1) := by
    have hd : List.drop (line.highlight_end - line.highlight_start)
        (line.text.drop (line.highlight_start - 1)) = line.text.drop (line.highlight_end - 1) := by
      rw [List.drop_drop]
      congr 1
      omega
    rw [← hd]
    exact List.take_append_drop _ _
  have h3 : (line.text.drop ws).take (line.highlight_start - 1 - ws) ++
        line.text.drop (line.highlight_start - 1) = line.text.drop ws := by
    have hd : List.drop (line.highlight_start - 1 - ws) (line.text.drop ws) =
        line.text.drop (line.highlight_start - 1) := by
      rw [List.drop_drop]
      congr 1
      omega
    rw [← hd]
    exact List.take_append_drop _ _
  dsimp only
  rw [List.append_assoc, h2, h3]

/-- C2 counterexample: the single-line span over `   q` with
`highlight_start = 3 ≤ highlight_end = 4 ≤ len+1 = 5` satisfies the
claim's column constraints, yet `parse_snippet` fails (computed indent
3 exceeds the 0-based start 2), so no snippet with the stated
concatenation property is produced. -/
theorem claim_C2_counterexample :
    ex_line_ws2.highlight_start ≤ ex_line_ws2.highlight_end ∧
    ex_line_ws2.highlight_end ≤ ex_line_ws2.text.length + 1 ∧
    ex_span_ws2.text = [ex_line_ws2] ∧
    parse_snippet none ex_span_ws2 = none := by decide

/-- C2 witness: on the `  foo(bar)` span the three parts concatenate to
the line text with the uniform indent 2 stripped. -/
theorem claim_C2_witness :
    ex_span_call.text = [ex_line_call] ∧
    ∃ snip, parse_snippet none ex_span_call = some snip ∧
      snip.text.1 ++ snip.text.2.1 ++ snip.text.2.2 =
        ex_line_call.text.drop (line_indent ex_line_call) :=
  ⟨rfl, claim_C2_single_line_concat none ex_span_call ex_line_call 2 rfl (by decide) (by decide)
    (by decide) (by decide) (by decide) (by decide)⟩

/-- C3: when `collect_suggestions` returns (does not panic), it returns the
absent value iff no span of any child diagnostic carries a
suggested-replacement string, and any returned `Suggestion` has a
non-empty `replacements` sequence. -/
theorem claim_C3_absent_iff_no_replacement (d : Diagnostic) (res : Option Suggestion)
    (h : collect_suggestions d = some res) :
    (res = none ↔ ∀ c ∈ d.children, ∀ s ∈ c.spans, s.suggested_replacement = none) ∧
    (∀ sugg, res = some sugg → sugg.replacements ≠ []) := by
  obtain ⟨snips, reps, hm, hr, hcase⟩ := collect_suggestions_destruct h
  obtain ⟨new, hreps, hmap⟩ := push_replacements_spec d.children [] reps hr
  have hrn : reps = new := by simpa using hreps
  subst hrn
  have key : reps = [] ↔ ∀ c ∈ d.children, ∀ s ∈ c.spans, s.suggested_replacement = none := by
    constructor
    · intro hn c hc s hs
      rw [hn] at hmap
      have h1 := (List.flatMap_eq_nil_iff.mp hmap.symm) c hc
      have h2 := (List.filterMap_eq_nil_iff.mp h1) s hs
      exact Option.map_eq_none'.mp h2
    · intro hall
      have hm0 : (reps.map fun r => (r.snippet.sub_message, r.replacement)) = [] := by
        rw [hmap]
        apply List.flatMap_eq_nil_iff.mpr
        intro c hc
        apply List.filterMap_eq_nil_iff.mpr
        intro s hs
        rw [hall c hc s hs]
        rfl
      simpa using hm0
  rcases hcase with ⟨hnil, hres⟩ | ⟨hne, hres⟩
  · subst hres
    refine ⟨⟨fun _ => key.mp hnil, fun _ => rfl⟩, ?_⟩
    intro sugg hcontra
    simp at hcontra
  · subst hres
    constructor
    · constructor
      · intro hcontra
        simp at hcontra
      · intro hall
        exact absurd (key.mpr hall) hne
    · intro sugg hsugg
      obtain rfl : _ = sugg := Option.some_inj.mp hsugg
      simpa using hne

/-- C3 witness: `ex_diag` has a replacement-bearing child, so the result
is present and its `replacements` list is never empty. -/
theorem claim_C3_witness :
    ((some ex_sugg : Option Suggestion) = none ↔
      ∀ c ∈ ex_diag.children, ∀ s ∈ c.spans, s.suggested_replacement = none) ∧
    (∀ sugg, (some ex_sugg : Option Suggestion) = some sugg → sugg.replacements ≠ []) :=
  claim_C3_absent_iff_no_replacement ex_diag (some ex_sugg) (by decide)

/-- C5: whenever `collect_suggestions` returns a `Suggestion`, its
`snippets` sequence has exactly one context snippet per span directly on
the diagnostic, in span order, and every context snippet has no
annotation message (`sub_message = none`). -/
theorem claim_C5_snippets_per_span (d : Diagnostic) (sugg : Suggestion)
    (h : collect_suggestions d = some (some sugg)) :
    sugg.snippets.length = d.spans.length ∧
    (∀ s ∈ sugg.snippets, s.sub_message = none) ∧
    (∀ i : Nat, sugg.snippets[i]? = d.spans[i]?.bind (fun sp => parse_snippet none sp)) := by
  obtain ⟨snips, reps, hm, hr, hcase⟩ := collect_suggestions_destruct h
  rcases hcase with ⟨_, habs⟩ | ⟨_, hsome⟩
  · simp at habs
  · have hs2 : sugg = { message := d.message, snippets := snips, replacements := reps } :=
      Option.some_inj.mp hsome
    subst hs2
    exact map_snippets_spec d.spans snips hm

/-- C5 witness: `ex_diag5` has one own span; its suggestion carries one
context snippet with no sub-message. -/
theorem claim_C5_witness :
    ex_sugg5.snippets.length = ex_diag5.spans.length ∧
    (∀ s ∈ ex_sugg5.snippets, s.sub_message = none) ∧
    (∀ i : Nat, ex_sugg5.snippets[i]? = ex_diag5.spans[i]?.bind (fun sp => parse_snippet none sp)) :=
  claim_C5_snippets_per_span ex_diag5 ex_sugg5 (by decide)

/-- C6: whenever `collect_suggestions` returns a `Suggestion`, its
`replacements` contain exactly one entry per replacement-carrying child
span, in child-then-span traversal order, each with the child's message
as the snippet's `sub_message` and the span's suggested-replacement
string as `replacement`; spans without a replacement contribute
nothing. -/
theorem claim_C6_replacements_traversal (d : Diagnostic) (sugg : Suggestion)
    (h : collect_suggestions d = some (some sugg)) :
    sugg.replacements.map (fun r => (r.snippet.sub_message, r.replacement)) =
      d.children.flatMap (fun c => c.spans.filterMap (fun s =>
        s.suggested_replacement.map (fun rep => ((some c.message : Option String), rep)))) := by
  obtain ⟨snips, reps, hm, hr, hcase⟩ := collect_suggestions_destruct h
  rcases hcase with ⟨_, habs⟩ | ⟨_, hsome⟩
  · simp at habs
  · obtain ⟨new, hreps, hmap⟩ := push_replacements_spec d.children [] reps hr
    have hrn : reps = new := by simpa using hreps
    have hs2 : sugg = { message := d.message, snippets := snips, replacements := reps } :=
      Option.some_inj.mp hsome
    subst hs2
    show reps.map _ = _
    rw [hrn, hmap]

/-- C6 witness: in `ex_diag6` the child `fix` has one plain span and one
span carrying replacement `z`; the replacements are exactly one entry
`(some fix, z)`. -/
theorem claim_C6_witness :
    ex_sugg6.replacements.map (fun r => (r.snippet.sub_message, r.replacement)) =
      ex_diag6.children.flatMap (fun c => c.spans.filterMap (fun s =>
        s.suggested_replacement.map (fun rep => ((some c.message : Option String), rep)))) :=
  claim_C6_replacements_traversal ex_diag6 ex_sugg6 (by decide)

/-- C4: for every multi-line span on which `parse_snippet` returns a
snippet, the body is exactly one segment per line record joined by single
newline separators: the first segment is the first line's byte slice from
`highlight_start - 1` to its `highlight_end - 1`, each interior segment
is the interior line's text from the uniform indent position to its end,
and the last segment is the last line's text from the indent position to
its `highlight_end - 1`. -/
theorem claim_C4_multiline_body (msg : Option String) (span : DiagnosticSpan) (snip : Snippet)
    (first lastL : DiagnosticSpanLine) (indent : Nat)
    (h2 : 2 ≤ span.text.length)
    (hf : span.text.head? = some first)
    (hl : span.text.getLast? = some lastL)
    (hi : (span.text.map line_indent).min? = some indent)
    (hp : parse_snippet msg span = some snip) :
    ∃ firstSeg midSegs lastSeg,
      byte_slice first.text (first.highlight_start - 1) (first.highlight_end - 1) = some firstSeg ∧
      interior_segs indent ((span.text.take (span.text.length - 1)).drop 1) = some midSegs ∧
      byte_slice lastL.text indent (lastL.highlight_end - 1) = some lastSeg ∧
      snip.text.2.1 = List.intercalate ['\n'] (firstSeg :: (midSegs ++ [lastSeg])) ∧
      (firstSeg :: (midSegs ++ [lastSeg])).length = span.text.length := by
  have htext := (parse_snippet_fields hp).2.2.2
  obtain ⟨indent', first', lastL', lead, body0, body1, body2, tail,
    hi', hf', hl', hlead, hb0, hb1, hif, ht, hlbt⟩ := parse_snippet_text_destruct htext
  rw [hf] at hf'
  rw [hl] at hl'
  rw [hi] at hi'
  obtain rfl : first = first' := Option.some_inj.mp hf'
  obtain rfl : lastL = lastL' := Option.some_inj.mp hl'
  obtain rfl : indent = indent' := Option.some_inj.mp hi'
  have hlen : span.text.length > 1 := by omega
  rw [if_pos hlen] at hif
  obtain ⟨lastSeg, hls, hb2⟩ := hif
  obtain ⟨midSegs, hmid, hbody1⟩ := push_interior_spec indent _ body0 body1 hb1
  refine ⟨body0, midSegs, lastSeg, hb0, hmid, hls, ?_, ?_⟩
  · rw [hlbt, hb2, hbody1, intercalate_newline_cons]
    simp
  · have hmlen := interior_segs_length indent _ midSegs hmid
    have htake : ((span.text.take (span.text.length - 1)).drop 1).length =
        span.text.length - 2 := by
      rw [List.length_drop, List.length_take]
      omega
    rw [htake] at hmlen
    simp only [List.length_cons, List.length_append, List.length_nil, hmlen]
    omega

/-- C4 witness: the three-line span yields body `ab`, `cd`, `e` joined by
newlines — three segments for three line records. -/
theorem claim_C4_witness :
    2 ≤ ex_span_multi.text.length ∧
    ∃ firstSeg midSegs lastSeg,
      byte_slice ex_ml1.text (ex_ml1.highlight_start - 1) (ex_ml1.highlight_end - 1) =
        some firstSeg ∧
      interior_segs 2 ((ex_span_multi.text.take (ex_span_multi.text.length - 1)).drop 1) =
        some midSegs ∧
      byte_slice ex_ml3.text 2 (ex_ml3.highlight_end - 1) = some lastSeg ∧
      ex_snip_multi.text.2.1 = List.intercalate ['\n'] (firstSeg :: (midSegs ++ [lastSeg])) ∧
      (firstSeg :: (midSegs ++ [lastSeg])).length = ex_span_multi.text.length :=
  ⟨by decide, claim_C4_multiline_body none ex_span_multi ex_snip_multi ex_ml1 ex_ml3 2
    (by decide) (by decide) (by decide) (by decide) (by decide)⟩

/-- C10: the extractor counts the indent in characters but slices with
byte offsets. For single-line ASCII spans with valid columns the slices
are total and character-accurate (byte offsets coincide with character
offsets), while on a concrete span containing a multibyte character
before the highlight columns the extractor aborts (returns no snippet)
even though the columns are within the line's character length plus
one. -/
theorem claim_C10_bytes_vs_chars :
    (∀ (msg : Option String) (span : DiagnosticSpan) (line : DiagnosticSpanLine) (ws : Nat),
      span.text = [line] → (∀ c ∈ line.text, c.utf8Size = 1) →
      ws = (line.text.takeWhile char_is_whitespace).length →
      1 ≤ line.highlight_start → ws < line.highlight_start →
      line.highlight_start ≤ line.highlight_end →
      line.highlight_end ≤ line.text.length + 1 →
      parse_snippet msg span = some
        { sub_message := msg
          file_name := span.file_name
          line_range :=
            { start := { line := span.line_start, column := span.column_start }
              «end» := { line := span.line_end, column := span.column_end } }
          text := ((line.text.drop ws).take (line.highlight_start - 1 - ws),
                   (line.text.drop (line.highlight_start - 1)).take
                     (line.highlight_end - line.highlight_start),
                   line.text.drop (line.highlight_end - 1)) }) ∧
    (ex_line_mb.highlight_start ≤ ex_line_mb.highlight_end ∧
     ex_line_mb.highlight_end ≤ ex_line_mb.text.length + 1 ∧
     ex_span_mb.text = [ex_line_mb] ∧
     parse_snippet none ex_span_mb = none) :=
  ⟨fun msg span line ws h1 h2 h3 h4 h5 h6 h7 =>
    parse_snippet_single_ascii msg span line ws h1 h2 h3 h4 h5 h6 h7, by decide⟩

/-- C10 witness: on the spec's ASCII example line the parse is total and
slices are character-accurate. -/
theorem claim_C10_witness :
    parse_snippet none ex_span_let = some
      { sub_message := none
        file_name := ex_span_let.file_name
        line_range :=
          { start := { line := ex_span_let.line_start, column := ex_span_let.column_start }
            «end» := { line := ex_span_let.line_end, column := ex_span_let.column_end } }
        text := ((ex_line_let.text.drop 4).take (ex_line_let.highlight_start - 1 - 4),
                 (ex_line_let.text.drop (ex_line_let.highlight_start - 1)).take
                   (ex_line_let.highlight_end - ex_line_let.highlight_start),
                 ex_line_let.text.drop (ex_line_let.highlight_end - 1)) } :=
  claim_C10_bytes_vs_chars.1 none ex_span_let ex_line_let 4 rfl (by decide) (by decide)
    (by decide) (by decide) (by decide) (by decide)
